import Mathlib

set_option autoImplicit false

/-!
Shallow embedding of the diagnostic/logging subsystem of the blinky firmware
(src/Application), together with proofs about the frozen behavioural claims.

Modelling conventions:
* C++ byte strings are modelled as Lean `String`s or `List Char`s (the code
  only handles ASCII text).
* CMSIS-RTOS message queues are modelled as Lean lists (front = oldest entry),
  the storage volume as the byte list of the single log file, and `uint32_t`
  arithmetic with explicit `% 2 ^ 32`.
* The build configuration modelled is the release feature set of the sources:
  `FS_LOG` and `RUN_TIME` defined, `DEBUG` undefined (the `printf` branches are
  compiled out; the file-sink dispatch in LogRouter::log is active).
* The storage and transport collaborator primitives (rl_fs, USB CDC) are taken
  to behave as their contracts state (synchronous, successful); the claims
  under study are about the logic layered on top of them.
-/

namespace Blinky

/-! ## UsbLogger message queue (src/Application/Src/usb_logger.cpp) -/

namespace UsbLogger

/-- Constant `LOG_QUEUE_LENGTH` from usb_logger.cpp line 82: number of
messages in the USB log queue. -/
def LOG_QUEUE_LENGTH : Nat := 32

/-- Models `UsbLogger::log` (usb_logger.cpp lines 306-314) acting on a queue
holding at most `cap` messages, front of the list = oldest entry.
`osMessageQueuePut(..., 0)` fails with `osErrorResource` exactly when the
queue already holds `cap` entries; the `while` loop then runs
`messageQueueFullHandler` (lines 290-297), which removes the oldest entry
with `osMessageQueueGet(..., 0, 0)`, and retries the put.
The `[]` branch of the full case is unreachable for `0 < cap` (a full queue
is nonempty); the code's queue has `cap = LOG_QUEUE_LENGTH = 32`. -/
def log (cap : Nat) (q : List String) (m : String) : List String :=
  if q.length < cap then q ++ [m]
  else
    match q with
    | [] => [m]
    | _ :: t => log cap t m

/-- Models a sequence of `UsbLogger::log` calls with no consumer draining the
queue (the drain thread blocked). -/
def logAll (cap : Nat) (q : List String) (ms : List String) : List String :=
  ms.foldl (log cap) q

/-- Models one `osMessageQueueGet` by the drain thread
(usb_logger.cpp line 332): returns the oldest message and the rest. -/
def dequeue (q : List String) : Option String × List String :=
  (q.head?, q.tail)

theorem log_length (cap : Nat) (hcap : 1 ≤ cap) (q : List String) (m : String) :
    (log cap q m).length = min (q.length + 1) cap := by
  induction q with
  | nil =>
    rw [log, if_pos (by simpa using hcap)]
    simp only [List.nil_append, List.length_cons, List.length_nil]
    omega
  | cons h t ih =>
    rw [log]
    split
    · rename_i hlt
      simp only [List.length_append, List.length_cons, List.length_nil] at hlt ⊢
      omega
    · rename_i hge
      rw [ih]
      simp only [List.length_cons] at hge ⊢
      omega

theorem log_eq_drop (cap : Nat) (hcap : 1 ≤ cap) (q : List String) (m : String) :
    log cap q m = (q ++ [m]).drop (q.length + 1 - cap) := by
  induction q with
  | nil =>
    have h1 : ([] : List String).length + 1 - cap = 0 := by
      simp only [List.length_nil]; omega
    rw [h1, List.drop_zero, log, if_pos (by simpa using hcap)]
  | cons h t ih =>
    rw [log]
    split
    · rename_i hlt
      have hz : (h :: t).length + 1 - cap = 0 := by
        simp only [List.length_cons] at hlt ⊢; omega
      rw [hz, List.drop_zero]
    · rename_i hge
      rw [ih]
      have harith : (h :: t).length + 1 - cap = (t.length + 1 - cap) + 1 := by
        simp only [List.length_cons] at hge ⊢; omega
      rw [harith, List.cons_append, List.drop_succ_cons]

theorem logAll_eq_drop (cap : Nat) (hcap : 1 ≤ cap) (q ms : List String)
    (hq : q.length ≤ cap) :
    logAll cap q ms = (q ++ ms).drop (q.length + ms.length - cap) := by
  induction ms generalizing q with
  | nil =>
    simp only [logAll, List.foldl_nil, List.append_nil, List.length_nil,
      Nat.add_zero]
    rw [Nat.sub_eq_zero_of_le hq, List.drop_zero]
  | cons m ms ih =>
    have hlen : (log cap q m).length = min (q.length + 1) cap :=
      log_length cap hcap q m
    have hle : (log cap q m).length ≤ cap := by rw [hlen]; omega
    have hstep : logAll cap q (m :: ms) = logAll cap (log cap q m) ms := rfl
    rw [hstep, ih _ hle, hlen, log_eq_drop cap hcap]
    have hk : q.length + 1 - cap ≤ (q ++ [m]).length := by
      simp only [List.length_append, List.length_cons, List.length_nil]
      omega
    rw [← List.drop_append_of_le_length hk, List.drop_drop]
    have hassoc : q ++ [m] ++ ms = q ++ m :: ms := by simp
    rw [hassoc]
    congr 1
    simp only [List.length_cons]
    omega

theorem logAll_length (cap : Nat) (hcap : 1 ≤ cap) (ms : List String) :
    (logAll cap [] ms).length ≤ cap := by
  rw [logAll_eq_drop cap hcap [] ms (by simp)]
  simp only [List.nil_append, List.length_drop, List.length_nil]
  omega

end UsbLogger

/-! ## LogRouter (src/Application/Src/log_router.cpp) -/

namespace LogRouter

/-- State of the `LogRouter` singleton: the two sink-enable flags
(log_router.h, initialised to `false` in the constructor at
log_router.cpp line 76). -/
structure State where
  usbLoggingEnabled : Bool
  fsLoggingEnabled : Bool
deriving DecidableEq

/-- Models `LogRouter::enableUsbLogging` (log_router.cpp line 81): a plain
setter of the USB flag. -/
def enableUsbLogging (enable : Bool) (s : State) : State :=
  { s with usbLoggingEnabled := enable }

/-- Models `LogRouter::enableFsLogging` (log_router.cpp line 86): a plain
setter of the file-system flag. -/
def enableFsLogging (enable : Bool) (s : State) : State :=
  { s with fsLoggingEnabled := enable }

/-- Models the `handleLogOn` command handler (usb_logger.cpp lines 149-157):
enables USB logging, then disables file-system logging. -/
def handleLogOn (s : State) : State :=
  enableFsLogging false (enableUsbLogging true s)

/-- Models the `handleLogOff` command handler (usb_logger.cpp lines 162-166). -/
def handleLogOff (s : State) : State :=
  enableUsbLogging false s

/-- Models the `handleFsLogOn` command handler (usb_logger.cpp lines 126-133):
enables file-system logging, then disables USB logging. -/
def handleFsLogOn (s : State) : State :=
  enableUsbLogging false (enableFsLogging true s)

/-- Models the `handleFsLogOff` command handler (usb_logger.cpp lines 138-144). -/
def handleFsLogOff (s : State) : State :=
  enableFsLogging false s

/-- At most one sink enabled: the invariant named by the spec. -/
def atMostOneSink (s : State) : Bool :=
  !(s.usbLoggingEnabled && s.fsLoggingEnabled)

/-- Checks whether the needle occurs as a leading segment of the haystack
(used to model `std::string_view::find`). -/
def leadsWith : List Char → List Char → Bool
  | _, [] => true
  | [], _ :: _ => false
  | c :: cs, d :: ds => c == d && leadsWith cs ds

/-- Models `msg.find(keyword) != std::string_view::npos`
(log_router.cpp line 108): the needle `nd` occurs somewhere in the
haystack. -/
def findSub (nd : List Char) : List Char → Bool
  | [] => leadsWith [] nd
  | c :: t => leadsWith (c :: t) nd || findSub nd t

/-- The keyword table of `LogRouter::log` (log_router.cpp lines 101-104),
matched case-sensitively as substrings. -/
def keywords : List String :=
  ["Warning", "Error", "Fail", "Critical", "Overflow", "Event",
   "Hardware Fault", "Program Fault", "System Fault", "Supervisor"]

/-- Models the keyword scan of `LogRouter::log`
(log_router.cpp lines 106-112). -/
def needTimeStamp (msg : String) : Bool :=
  keywords.any fun k => findSub k.data msg.data

/-- The substitute message for empty input (log_router.cpp line 99). -/
def emptyMsgDefault : String := "Warning: Log message is empty.\r\n"

/-- Models `snprintf` into an `n + 1`-byte buffer: at most `n` characters are
kept (the last byte is the terminating NUL). -/
def truncate (n : Nat) (s : String) : String :=
  ⟨s.data.take n⟩

/-- Models the keyword scan and `snprintf` calls of `LogRouter::log`
(log_router.cpp lines 106-122) on the (possibly substituted) message `m`:
optional timestamp prefix `[ts] ` and the 256-byte `logBuffer`. -/
def formatKeyworded (ts m : String) : String :=
  if needTimeStamp m then truncate 255 ("[" ++ ts ++ "] " ++ m)
  else truncate 255 m

/-- Models the formatting phase of `LogRouter::log`
(log_router.cpp lines 93-122): empty-message substitution, keyword scan,
optional timestamp prefix, and the 256-byte `logBuffer`. `ts` is the string
returned by `BootClock::getCurrentTimeString()`. -/
def formatMsg (ts msg : String) : String :=
  if msg.data.length = 0 then formatKeyworded ts emptyMsgDefault
  else formatKeyworded ts msg

/-- The two sinks a message can be routed to. -/
inductive Sink where
  | usb
  | fs
deriving DecidableEq

/-- Models the sink-selection phase of `LogRouter::log`
(log_router.cpp lines 124-134), build configuration `FS_LOG` defined and
`DEBUG` undefined: file sink if enabled, else USB sink if enabled, else
none. -/
def routeTarget (s : State) : Option Sink :=
  if s.fsLoggingEnabled then some Sink.fs
  else if s.usbLoggingEnabled then some Sink.usb
  else none

/-- Models `LogRouter::log(msg)` (log_router.cpp lines 93-138): the formatted
message delivered to the selected sink, or `none` when no sink is enabled. -/
def log (s : State) (ts msg : String) : Option (Sink × String) :=
  (routeTarget s).map fun k => (k, formatMsg ts msg)

/-- Keyword set as worded by the spec sentence behind claim C7
(for comparison with the `keywords` table of the source). -/
def specClaimKeywords : List String :=
  ["warning", "error", "fail", "critical", "overflow", "fault", "event"]

/-- Spec-worded keyword match for claim C7. -/
def specClaimKeywordMatch (msg : String) : Bool :=
  specClaimKeywords.any fun k => findSub k.data msg.data

end LogRouter

/-! ## BootClock (src/Application/Src/boot_clock.cpp) -/

namespace BootClock

/-- Modulus of `uint32_t` arithmetic: `clock_offset` and the tick count are
32-bit values. -/
def U32 : Nat := 4294967296

/-- Decimal value of an ASCII digit character. -/
def digitVal (c : Char) : Nat := c.toNat - 48

/-- ASCII digit character of a value below 10. -/
def digitChar (n : Nat) : Char := Char.ofNat (48 + n)

/-- Two-digit zero-padded decimal, models `"%02u"` for values below 100. -/
def pad2 (n : Nat) : String := String.mk [digitChar (n / 10 % 10), digitChar (n % 10)]

/-- Three-digit zero-padded decimal, models `"%03u"` for values below 1000. -/
def pad3 (n : Nat) : String :=
  String.mk [digitChar (n / 100 % 10), digitChar (n / 10 % 10), digitChar (n % 10)]

/-- The "HH:MM:SS.mmm" rendering of a total-milliseconds value, as computed by
`BootClock::getCurrentTimeString` (boot_clock.cpp lines 67-78). -/
def clockDisplay (totalMilliseconds : Nat) : String :=
  pad2 (totalMilliseconds / 3600000 % 24) ++ ":"
    ++ pad2 (totalMilliseconds / 60000 % 60) ++ ":"
    ++ pad2 (totalMilliseconds / 1000 % 60) ++ "."
    ++ pad3 (totalMilliseconds % 1000)

/-- Models `BootClock::getCurrentTimeString` (boot_clock.cpp lines 67-78):
`tick` is `osKernelGetTickCount()` and `clock_offset` the stored offset; the
sum is `uint32_t` addition. -/
def getCurrentTimeString (tick clock_offset : Nat) : String :=
  clockDisplay ((tick + clock_offset) % U32)

/-- Return status of `BootClock::setRTC` (boot_clock.h lines 35-39). -/
inductive SetRTCStatus where
  | SUCCESS
  | INVALID_RX_FORMAT
  | INVALID_VALUE
deriving DecidableEq

/-- Models `sscanf(buf, "%2u:%2u:%2u", ...)` (boot_clock.cpp line 88) on
8-character digit-shaped commands, the only shape the `loggerCommand` guard
(usb_logger.cpp line 411) forwards. scanf's skipping of leading whitespace
inside a field is outside the model; the claims quantify over digit-shaped
inputs. -/
def parseRTC (s : String) : Option (Nat × Nat × Nat) :=
  match s.data with
  | [h1, h2, c1, m1, m2, c2, s1, s2] =>
    if h1.isDigit && h2.isDigit && c1 == ':' && m1.isDigit && m2.isDigit
        && c2 == ':' && s1.isDigit && s2.isDigit then
      some (10 * digitVal h1 + digitVal h2, 10 * digitVal m1 + digitVal m2,
        10 * digitVal s1 + digitVal s2)
    else none
  | _ => none

/-- Models `BootClock::setRTC` (boot_clock.cpp lines 85-100): on a parse
failure or an out-of-range field the offset is left unchanged; otherwise the
offset becomes the `uint32_t` difference between the requested
milliseconds-of-day and the current tick count. Returns the status and the
new `clock_offset`. -/
def setRTC (tick clock_offset : Nat) (buf : String) : SetRTCStatus × Nat :=
  match parseRTC buf with
  | none => (SetRTCStatus.INVALID_RX_FORMAT, clock_offset)
  | some (hours, minutes, seconds) =>
    if 24 ≤ hours ∨ 60 ≤ minutes ∨ 60 ≤ seconds then
      (SetRTCStatus.INVALID_VALUE, clock_offset)
    else
      (SetRTCStatus.SUCCESS,
        (hours * 3600000 + minutes * 60000 + seconds * 1000 + U32 - tick % U32)
          % U32)

end BootClock

/-! ## UsbLogger command protocol (usb_logger.cpp, `loggerCommand`) -/

namespace UsbLogger

/-- Constant `LED_ON_TIME_MIN` from led_thread.h line 23. -/
def LED_ON_TIME_MIN : Nat := 100

/-- Constant `LED_ON_TIME_MAX` from led_thread.h line 24. -/
def LED_ON_TIME_MAX : Nat := 2000

/-- Keys of `commandMap` (usb_logger.cpp lines 188-193). -/
def commandNames : List String :=
  ["set on time", "fsLog out", "fsLog on", "fsLog off", "log on", "log off",
   "set clock", "help"]

/-- The literal passed to `usbXferChunk` for an out-of-range on-time
(usb_logger.cpp lines 403-405). The format specifier is NOT substituted
there: the literal itself is handed to the transmit primitive, with the
received value as the byte count. -/
def invalidOnTimeReply : String :=
  "Reply: Invalid ON Time received: %d. Enter between 100 and 2000.\r\n"

/-- The literal passed to `usbXferChunk` for an unrecognized command
(usb_logger.cpp lines 421-422). -/
def invalidCommandReply : String :=
  "Reply: Invalid command. Type \x27help\x27 for list of commands\r\n"

/-- Models transmitting `len` bytes of `msg` with `usbXferChunk(msg, len)`:
the first `len` bytes of the buffer. A `len` beyond the literal's end would
read out of bounds in the C code; it is modelled as truncation, and the
claims only instantiate `len` within the literal. -/
def xferBytes (msg : String) (len : Nat) : String :=
  String.mk (msg.data.take len)

/-- Models `isInteger` (strtol accepting the whole buffer, usb_logger.cpp
lines 375-382) combined with `sscanf(rxBuf, "%u", &temp)` (line 393), on
unsigned digit strings. The sign and whitespace forms strtol would also
accept are outside the model; the claims quantify over bare digit
commands. -/
def parseDec (s : String) : Option Nat :=
  if !s.data.isEmpty && s.data.all Char.isDigit then
    some (s.data.foldl (fun a c => 10 * a + BootClock.digitVal c) 0)
  else none

/-- Observable outcome of one `UsbLogger::loggerCommand` poll. -/
inductive CmdAction where
  | mapped (name : String)
  | ledOnTimeSet (v : Nat) (routerLog : String)
  | chunkReply (bytes : String)
  | setClock (buf : String)
  | silent
deriving DecidableEq

/-- Models the dispatch logic of `UsbLogger::loggerCommand`
(usb_logger.cpp lines 370-428) on a received command string, with `RUN_TIME`
defined: map lookup first, then the bare-integer branch (range-checked
against the LED on-time bounds; `0` ignored as noise), then the
`hh:mm:ss`-shaped clock branch, then the invalid-command reply for anything
longer than one byte. Returns the new LED on-time and the action taken. -/
def loggerCommand (onTime : Nat) (rxBuf : String) : Nat × CmdAction :=
  if rxBuf ∈ commandNames then (onTime, CmdAction.mapped rxBuf)
  else
    match parseDec rxBuf with
    | some temp =>
      if LED_ON_TIME_MIN ≤ temp ∧ temp ≤ LED_ON_TIME_MAX then
        (temp, CmdAction.ledOnTimeSet temp
          ("Event: New ON Time: " ++ toString temp ++ " ms\r\n"))
      else if temp ≠ 0 then
        (onTime, CmdAction.chunkReply (xferBytes invalidOnTimeReply temp))
      else (onTime, CmdAction.silent)
    | none =>
      if rxBuf.data.length = 8 ∧ rxBuf.data[2]? = some ':'
          ∧ rxBuf.data[5]? = some ':' then
        (onTime, CmdAction.setClock rxBuf)
      else if 1 < rxBuf.data.length then
        (onTime, CmdAction.chunkReply (xferBytes invalidCommandReply 60))
      else (onTime, CmdAction.silent)

theorem parseDec_digits {s : String} {v : Nat} (h : parseDec s = some v) :
    s.data.all Char.isDigit = true := by
  unfold parseDec at h
  split at h
  · rename_i hc
    exact (Bool.and_eq_true_iff.mp hc).2
  · cases h

theorem parseDec_not_command {s : String} {v : Nat}
    (h : parseDec s = some v) : s ∉ commandNames := by
  have hd := parseDec_digits h
  intro hmem
  simp only [commandNames, List.mem_cons, List.not_mem_nil, or_false] at hmem
  rcases hmem with rfl | rfl | rfl | rfl | rfl | rfl | rfl | rfl <;>
    exact absurd hd (by decide)

end UsbLogger

/-! ## FsLog: durable file sink (src/Application/Src/fs_log.cpp) -/

namespace FsLog

/-- The marker written by `fs_recreate` (fs_log.cpp line 183). -/
def RECREATE_MARKER : String := "Log file recreated after write error.\r\n"

/-- The notice logged by `FsLog::replayLogsToUsb` (fs_log.cpp line 363). -/
def replayNotice : String := "Replaying logs to USB...\n"

/-- State of the durable log: the byte content of `R0:\log.txt` and the
module-level replay cursor `cursor_pos` (fs_log.cpp line 110). -/
structure FsState where
  content : List Char
  cursor_pos : Nat
deriving DecidableEq

/-- Models `ffree(drive_r0)` for a volume of the given capacity whose only
occupant is the log file. -/
def ffree (capacity : Nat) (s : FsState) : Nat := capacity - s.content.length

/-- Models `fs_write` (fs_log.cpp lines 291-345) with the storage primitives
succeeding, as their synchronous contracts state: open for append, seek to
end, check free space against `strlen(msg)`; if insufficient, `fs_recreate`
(fs_log.cpp lines 175-189, which closes, removes and recreates the file and
writes the marker; it succeeds on the first of its three retries in the
failure-free model), then the message is appended and `cursor_pos` is reset
to 0; otherwise the message is appended directly. -/
def fs_write (capacity : Nat) (msg : String) (s : FsState) : FsState :=
  if ffree capacity s < msg.data.length then
    { content := RECREATE_MARKER.data ++ msg.data, cursor_pos := 0 }
  else
    { content := s.content ++ msg.data, cursor_pos := s.cursor_pos }

/-- The first newline-terminated record of a byte sequence. -/
def firstRecord : List Char → List Char
  | [] => []
  | c :: t => c :: (if c == '\n' then [] else firstRecord t)

/-- A single record: nonempty, with its newline exactly at the end. -/
def isRecord : List Char → Bool
  | [] => false
  | c :: t => if c == '\n' then t.isEmpty else isRecord t

theorem firstRecord_append {a : List Char} (b : List Char)
    (h : isRecord a = true) : firstRecord (a ++ b) = a := by
  induction a with
  | nil => cases h
  | cons c t ih =>
    unfold isRecord at h
    unfold firstRecord
    split at h
    · rename_i hc
      have ht : t = [] := List.isEmpty_iff.mp h
      subst ht
      simp only [List.cons_append, List.nil_append]
      rw [if_pos hc]
    · rename_i hc
      rw [List.cons_append]
      show c :: (if c == '\n' then [] else firstRecord (t ++ b)) = c :: t
      rw [if_neg (by simpa using hc), ih h]

/-! ### Replay loop (`FsLog::fsLogThread`, fs_log.cpp lines 376-436) -/

/-- Constant `FS_DATA_PAKET_SIZE` (fs_log.cpp line 379). -/
def FS_DATA_PAKET_SIZE : Nat := 256

/-- The bytes read by one loop iteration at cursor `pos`
(fs_log.cpp lines 402-407): seek to `pos`, read
`min (size - pos) FS_DATA_PAKET_SIZE` bytes. -/
def chunkAt (content : List Char) (pos : Nat) : List Char :=
  (content.drop pos).take FS_DATA_PAKET_SIZE

/-- Index of the last newline of a byte sequence, if any. -/
def lastNl : List Char → Option Nat
  | [] => none
  | c :: t =>
    match lastNl t with
    | some i => some (i + 1)
    | none => if c == '\n' then some 0 else none

/-- The value of `n` after the backwards trim scan
(fs_log.cpp lines 410-417): `end_ptr` walks back from the end of the chunk
until it hits a newline or the start, and `n = end_ptr - start_ptr + 1`.
This is `i + 1` for a last newline at index `i`, and `1` when the chunk has
no newline at all (or only at index 0). -/
def trimLen (l : List Char) : Nat :=
  match lastNl l with
  | some i => i + 1
  | none => 1

/-- Outcome of one iteration of the replay loop. -/
inductive StepRes where
  | done
  | sent (chunk : List Char) (next : Nat)
  | stall
deriving DecidableEq

/-- One iteration of the `for(;;)` loop of `FsLog::fsLogThread`
(fs_log.cpp lines 395-434): return when the file size is not beyond the
cursor; otherwise read a chunk, trim it, and either transmit it over USB and
advance the cursor by the trimmed length (`n > 1`), or — when `n <= 1` — do
nothing and come around with the cursor unchanged. -/
def fsStep (content : List Char) (pos : Nat) : StepRes :=
  if content.length ≤ pos then StepRes.done
  else
    if 1 < trimLen (chunkAt content pos) then
      StepRes.sent ((chunkAt content pos).take (trimLen (chunkAt content pos)))
        (pos + trimLen (chunkAt content pos))
    else StepRes.stall

/-- Fuel-bounded execution of the replay loop, collecting the transmitted
chunks; `none` means the loop was still running when the fuel ran out. -/
def fsRun (content : List Char) : Nat → Nat → Option (List (List Char) × Nat)
  | 0, _ => none
  | fuel + 1, pos =>
    match fsStep content pos with
    | StepRes.done => some ([], pos)
    | StepRes.sent c next =>
      (fsRun content fuel next).map fun r => (c :: r.1, r.2)
    | StepRes.stall => fsRun content fuel pos

/-- The replay loop terminates from cursor `pos`. -/
def Terminates (content : List Char) (pos : Nat) : Prop :=
  ∃ fuel r, fsRun content fuel pos = some r

/-- Cursor after one loop iteration (unchanged unless a chunk is sent). -/
def advance (content : List Char) (pos : Nat) : Nat :=
  match fsStep content pos with
  | StepRes.sent _ next => next
  | _ => pos

/-- A zero-progress iteration: data remains but the trimmed length is at
most 1, so nothing is transmitted and the cursor does not move. -/
def stalled (content : List Char) (pos : Nat) : Prop :=
  fsStep content pos = StepRes.stall

instance (content : List Char) (pos : Nat) : Decidable (stalled content pos) :=
  inferInstanceAs (Decidable (_ = _))

theorem fsStep_eq_done_iff {content : List Char} {pos : Nat} :
    fsStep content pos = StepRes.done ↔ content.length ≤ pos := by
  unfold fsStep
  constructor
  · intro h
    by_contra hlt
    rw [if_neg hlt] at h
    split at h <;> cases h
  · intro h; rw [if_pos h]

theorem fsStep_sent_inv {content : List Char} {pos : Nat} {c : List Char}
    {next : Nat} (h : fsStep content pos = StepRes.sent c next) :
    pos < content.length
    ∧ 1 < trimLen (chunkAt content pos)
    ∧ c = (chunkAt content pos).take (trimLen (chunkAt content pos))
    ∧ next = pos + trimLen (chunkAt content pos) := by
  unfold fsStep at h
  split at h
  · cases h
  · rename_i hlt
    split at h
    · rename_i hn
      injection h with h1 h2
      exact ⟨by omega, hn, h1.symm, h2.symm⟩
    · cases h

theorem fsStep_stall_inv {content : List Char} {pos : Nat}
    (h : fsStep content pos = StepRes.stall) :
    pos < content.length ∧ trimLen (chunkAt content pos) ≤ 1 := by
  unfold fsStep at h
  split at h
  · cases h
  · rename_i hlt
    split at h
    · cases h
    · rename_i hn
      exact ⟨by omega, by omega⟩

theorem lastNl_lt_length {l : List Char} {i : Nat} (h : lastNl l = some i) :
    i < l.length := by
  induction l generalizing i with
  | nil => cases h
  | cons c t ih =>
    unfold lastNl at h
    split at h
    · rename_i j hj
      injection h with h1
      subst h1
      have := ih hj
      simp only [List.length_cons]
      omega
    · split at h
      · injection h with h1
        subst h1
        simp
      · cases h

theorem lastNl_get {l : List Char} {i : Nat} (h : lastNl l = some i) :
    l[i]? = some '\n' := by
  induction l generalizing i with
  | nil => cases h
  | cons c t ih =>
    unfold lastNl at h
    split at h
    · rename_i j hj
      injection h with h1
      subst h1
      simpa using ih hj
    · rename_i hj
      split at h
      · rename_i hc
        injection h with h1
        subst h1
        simpa using (beq_iff_eq.mp hc)
      · cases h

theorem trimLen_pos (l : List Char) : 1 ≤ trimLen l := by
  unfold trimLen
  split <;> omega

theorem trimLen_le {l : List Char} (h : l ≠ []) : trimLen l ≤ l.length := by
  unfold trimLen
  split
  · rename_i i hi
    exact lastNl_lt_length hi
  · cases l with
    | nil => exact absurd rfl h
    | cons c t => simp

theorem take_getLast_of_getElem {l : List Char} {i : Nat} {x : Char}
    (h : l[i]? = some x) : (l.take (i + 1)).getLast? = some x := by
  induction l generalizing i with
  | nil => cases h
  | cons c t ih =>
    cases i with
    | zero =>
      simp only [List.getElem?_cons_zero, Option.some.injEq] at h
      subst h
      rfl
    | succ i =>
      simp only [List.getElem?_cons_succ] at h
      have ht := ih h
      cases t with
      | nil => cases h
      | cons d t2 =>
        rw [List.take_succ_cons, List.take_succ_cons, List.getLast?_cons_cons]
        rw [List.take_succ_cons] at ht
        exact ht

theorem chunkAt_length (content : List Char) (pos : Nat) :
    (chunkAt content pos).length = min FS_DATA_PAKET_SIZE (content.length - pos) := by
  unfold chunkAt
  simp

theorem take_chunkAt (content : List Char) (pos n : Nat)
    (h : n ≤ FS_DATA_PAKET_SIZE) :
    (chunkAt content pos).take n = (content.drop pos).take n := by
  unfold chunkAt
  rw [List.take_take]
  congr 1
  omega

theorem sent_chunk_spec {content : List Char} {pos : Nat} {c : List Char}
    {next : Nat} (h : fsStep content pos = StepRes.sent c next) :
    c = (content.drop pos).take (trimLen (chunkAt content pos))
    ∧ c.getLast? = some '\n'
    ∧ c.length = trimLen (chunkAt content pos)
    ∧ next = pos + c.length := by
  obtain ⟨hlt, hn, hc, hnext⟩ := fsStep_sent_inv h
  have hchunk : chunkAt content pos ≠ [] := by
    have : (chunkAt content pos).length ≠ 0 := by
      rw [chunkAt_length]
      simp only [FS_DATA_PAKET_SIZE]
      omega
    exact fun he => this (by rw [he]; rfl)
  have hle : trimLen (chunkAt content pos) ≤ (chunkAt content pos).length :=
    trimLen_le hchunk
  have hle256 : trimLen (chunkAt content pos) ≤ FS_DATA_PAKET_SIZE := by
    have := chunkAt_length content pos
    omega
  have hi : ∃ i, lastNl (chunkAt content pos) = some i := by
    rcases he : lastNl (chunkAt content pos) with _ | i
    · exfalso
      have h1 : trimLen (chunkAt content pos) = 1 := by
        unfold trimLen; rw [he]
      omega
    · exact ⟨i, rfl⟩
  obtain ⟨i, hi⟩ := hi
  have htl : trimLen (chunkAt content pos) = i + 1 := by
    unfold trimLen; rw [hi]
  have hgl : c.getLast? = some '\n' := by
    rw [hc, htl]
    exact take_getLast_of_getElem (lastNl_get hi)
  have hclen : c.length = trimLen (chunkAt content pos) := by
    rw [hc]
    simp only [List.length_take]
    omega
  refine ⟨?_, hgl, hclen, by omega⟩
  rw [hc, take_chunkAt content pos _ hle256]

theorem fsRun_succ_done {content : List Char} {fuel pos : Nat}
    (h : fsStep content pos = StepRes.done) :
    fsRun content (fuel + 1) pos = some ([], pos) := by
  conv_lhs => unfold fsRun
  rw [h]

theorem fsRun_succ_sent {content : List Char} {fuel pos : Nat}
    {c : List Char} {next : Nat} (h : fsStep content pos = StepRes.sent c next) :
    fsRun content (fuel + 1) pos
      = (fsRun content fuel next).map fun r => (c :: r.1, r.2) := by
  conv_lhs => unfold fsRun
  rw [h]

theorem fsRun_succ_stall {content : List Char} {fuel pos : Nat}
    (h : fsStep content pos = StepRes.stall) :
    fsRun content (fuel + 1) pos = fsRun content fuel pos := by
  conv_lhs => unfold fsRun
  rw [h]

theorem chunkAt_ne_nil {content : List Char} {pos : Nat}
    (h : pos < content.length) : chunkAt content pos ≠ [] := by
  intro he
  have hl := chunkAt_length content pos
  rw [he] at hl
  simp only [List.length_nil, FS_DATA_PAKET_SIZE] at hl
  omega

theorem sent_lastNl {content : List Char} {pos : Nat} {c : List Char}
    {next : Nat} (h : fsStep content pos = StepRes.sent c next) :
    lastNl (chunkAt content pos) = some (c.length - 1) := by
  obtain ⟨hlt, hn, hc, hnext⟩ := fsStep_sent_inv h
  obtain ⟨_, _, hclen, _⟩ := sent_chunk_spec h
  rcases he : lastNl (chunkAt content pos) with _ | i
  · exfalso
    have h1 : trimLen (chunkAt content pos) = 1 := by
      unfold trimLen; rw [he]
    omega
  · have h1 : trimLen (chunkAt content pos) = i + 1 := by
      unfold trimLen; rw [he]
    congr 1
    omega

theorem fsRun_spec (content : List Char) :
    ∀ (fuel pos : Nat) (chunks : List (List Char)) (fin : Nat),
      pos ≤ content.length →
      fsRun content fuel pos = some (chunks, fin) →
      pos ≤ fin ∧ fin ≤ content.length
      ∧ chunks.foldr (· ++ ·) [] = (content.drop pos).take (fin - pos)
      ∧ ∀ c ∈ chunks, c.getLast? = some '\n' := by
  intro fuel
  induction fuel with
  | zero =>
    intro pos chunks fin hpos h
    cases h
  | succ fuel ih =>
    intro pos chunks fin hpos h
    cases hstep : fsStep content pos with
    | done =>
      rw [fsRun_succ_done hstep] at h
      injection h with h1
      injection h1 with h1 h2
      subst h1; subst h2
      refine ⟨le_rfl, hpos, by simp, by simp⟩
    | sent c next =>
      rw [fsRun_succ_sent hstep] at h
      obtain ⟨⟨rc, rf⟩, hr, heq⟩ := Option.map_eq_some'.mp h
      simp only [Prod.mk.injEq] at heq
      obtain ⟨hch, hfin⟩ := heq
      subst hch; subst hfin
      obtain ⟨hcdrop, hgl, hclen, hnexteq⟩ := sent_chunk_spec hstep
      obtain ⟨hlt, hn, _, _⟩ := fsStep_sent_inv hstep
      have hnle : next ≤ content.length := by
        have h1 := trimLen_le (chunkAt_ne_nil hlt)
        have h2 := chunkAt_length content pos
        omega
      obtain ⟨h1, h2, h3, h4⟩ := ih next rc rf hnle hr
      have hcc : c = (content.drop pos).take c.length := by
        rw [hclen]; exact hcdrop
      refine ⟨by omega, h2, ?_, ?_⟩
      · show c ++ rc.foldr (· ++ ·) [] = (content.drop pos).take (rf - pos)
        rw [h3]
        have hdd : content.drop next = (content.drop pos).drop c.length := by
          rw [List.drop_drop, show pos + c.length = next from by omega]
        rw [hdd]
        have hsplit : rf - pos = c.length + (rf - next) := by omega
        rw [hsplit, List.take_add, ← hcc]
      · intro x hx
        rcases List.mem_cons.mp hx with rfl | hx2
        · exact hgl
        · exact h4 x hx2
    | stall =>
      rw [fsRun_succ_stall hstep] at h
      exact ih pos chunks fin hpos h

theorem run_no_stall (content : List Char) :
    ∀ (fuel pos : Nat) (r : List (List Char) × Nat),
      fsRun content fuel pos = some r →
      ∀ k, ¬ stalled content ((advance content)^[k] pos) := by
  intro fuel
  induction fuel with
  | zero =>
    intro pos r h
    cases h
  | succ fuel ih =>
    intro pos r h k
    cases hstep : fsStep content pos with
    | done =>
      have hfix : advance content pos = pos := by unfold advance; rw [hstep]
      rw [Function.iterate_fixed hfix k]
      intro hs
      rw [stalled, hstep] at hs
      cases hs
    | sent c next =>
      cases k with
      | zero =>
        rw [Function.iterate_zero_apply]
        intro hs
        rw [stalled, hstep] at hs
        cases hs
      | succ k =>
        rw [Function.iterate_succ_apply,
          show advance content pos = next from by unfold advance; rw [hstep]]
        rw [fsRun_succ_sent hstep] at h
        obtain ⟨r2, hr2, _⟩ := Option.map_eq_some'.mp h
        exact ih next r2 hr2 k
    | stall =>
      rw [fsRun_succ_stall hstep] at h
      exact ih pos r h k

theorem terminates_of_no_stall_aux (content : List Char) :
    ∀ (d pos : Nat), content.length - pos ≤ d →
      (∀ k, ¬ stalled content ((advance content)^[k] pos)) →
      Terminates content pos := by
  intro d
  induction d with
  | zero =>
    intro pos hd _
    exact ⟨1, ([], pos), fsRun_succ_done (fsStep_eq_done_iff.mpr (by omega))⟩
  | succ d ih =>
    intro pos hd H
    by_cases hle : content.length ≤ pos
    · exact ⟨1, ([], pos), fsRun_succ_done (fsStep_eq_done_iff.mpr hle)⟩
    · cases hstep : fsStep content pos with
      | done => exact ⟨1, ([], pos), fsRun_succ_done hstep⟩
      | sent c next =>
        obtain ⟨hlt, hn, hc, hnext⟩ := fsStep_sent_inv hstep
        have H2 : ∀ k, ¬ stalled content ((advance content)^[k] next) := by
          intro k
          have hk := H (k + 1)
          rw [Function.iterate_succ_apply,
            show advance content pos = next from by unfold advance; rw [hstep]] at hk
          exact hk
        have htle : trimLen (chunkAt content pos) ≤ content.length - pos := by
          have h1 := trimLen_le (chunkAt_ne_nil hlt)
          have h2 := chunkAt_length content pos
          omega
        obtain ⟨fuel, r, hr⟩ := ih next (by omega) H2
        exact ⟨fuel + 1, (c :: r.1, r.2), by rw [fsRun_succ_sent hstep, hr]; rfl⟩
      | stall =>
        have h0 := H 0
        rw [Function.iterate_zero_apply] at h0
        exact absurd hstep h0

/-- Models `FsLog::replayLogsToUsb` (fs_log.cpp lines 361-367) in the
initialized state (`fsInit == 0`): it unconditionally logs the notice through
`UsbLogger` and then runs the replay loop `fsLogThread`. The result is the
list of USB log messages emitted, the chunks transmitted, and the final
cursor (`none` when the fuel runs out before the loop returns). -/
def replayLogsToUsb (content : List Char) (cursor_pos fuel : Nat) :
    Option (List String × List (List Char) × Nat) :=
  (fsRun content fuel cursor_pos).map fun r => ([replayNotice], r.1, r.2)

end FsLog

/-! ## Claim theorems for the queue and the router -/

/-- C1: for every sequence of `UsbLogger::log` calls into an undrained queue,
the queue length never exceeds the capacity (N = 32) and the surviving
entries are exactly the N most recently enqueued messages; concretely, a
capacity-2 queue after enqueuing "A", "B", "C" holds exactly ["B", "C"], and
draining yields "B" and then "C". -/
theorem claim_C1 (ms : List String) :
    (UsbLogger.logAll UsbLogger.LOG_QUEUE_LENGTH [] ms).length
        ≤ UsbLogger.LOG_QUEUE_LENGTH
    ∧ (UsbLogger.LOG_QUEUE_LENGTH ≤ ms.length →
        UsbLogger.logAll UsbLogger.LOG_QUEUE_LENGTH [] ms
          = ms.drop (ms.length - UsbLogger.LOG_QUEUE_LENGTH))
    ∧ UsbLogger.logAll 2 [] ["A", "B", "C"] = ["B", "C"]
    ∧ UsbLogger.dequeue (UsbLogger.logAll 2 [] ["A", "B", "C"])
        = (some "B", ["C"])
    ∧ UsbLogger.dequeue ["C"] = (some "C", []) := by
  refine ⟨UsbLogger.logAll_length _ (by norm_num [UsbLogger.LOG_QUEUE_LENGTH]) ms,
    fun h => ?_, rfl, rfl, rfl⟩
  rw [UsbLogger.logAll_eq_drop _ (by norm_num [UsbLogger.LOG_QUEUE_LENGTH]) [] ms
    (by simp)]
  simp

/-- Witness for C1 at a concrete overload: 33 enqueues into the capacity-32
queue keep exactly the last 32. -/
theorem claim_C1_witness :
    UsbLogger.logAll UsbLogger.LOG_QUEUE_LENGTH [] (List.replicate 33 "x")
      = (List.replicate 33 "x").drop
          ((List.replicate 33 "x").length - UsbLogger.LOG_QUEUE_LENGTH) :=
  (claim_C1 (List.replicate 33 "x")).2.1
    (by norm_num [UsbLogger.LOG_QUEUE_LENGTH])

/-- C2 counterexample: `LogRouter::enableUsbLogging(true)` is a plain setter;
called in the state where only file-system logging is enabled it leaves BOTH
sinks enabled, so the claimed per-setter mutual exclusion fails. -/
theorem claim_C2_counterexample :
    (LogRouter.enableUsbLogging true (LogRouter.State.mk false true)).usbLoggingEnabled
        = true
    ∧ (LogRouter.enableUsbLogging true (LogRouter.State.mk false true)).fsLoggingEnabled
        = true :=
  ⟨rfl, rfl⟩

/-- C2 amended: the setters themselves are independent flags; mutual
exclusion is enforced one level up, by the command handlers: `handleLogOn`
and `handleFsLogOn` each enable one sink and disable the other, so after any
of the four sink command handlers runs, at most one sink is active (the off
handlers preserve the invariant). -/
theorem claim_C2_amended (s : LogRouter.State) :
    LogRouter.atMostOneSink (LogRouter.handleLogOn s) = true
    ∧ LogRouter.atMostOneSink (LogRouter.handleFsLogOn s) = true
    ∧ (LogRouter.atMostOneSink s = true →
        LogRouter.atMostOneSink (LogRouter.handleLogOff s) = true
        ∧ LogRouter.atMostOneSink (LogRouter.handleFsLogOff s) = true) := by
  obtain ⟨u, f⟩ := s
  cases u <;> cases f <;> decide

/-- Witness for the amended C2 at a concrete state. -/
theorem claim_C2_amended_witness :
    LogRouter.atMostOneSink
        (LogRouter.handleLogOff (LogRouter.State.mk true false)) = true
    ∧ LogRouter.atMostOneSink
        (LogRouter.handleFsLogOff (LogRouter.State.mk true false)) = true :=
  (claim_C2_amended (LogRouter.State.mk true false)).2.2 (by decide)

/-- C7 counterexample: the message "fault detected" matches the spec-claimed
keyword set (it contains "fault"), but the code's keyword table is
case-sensitive and has no bare "fault"/"Fault" entry, so the message is
dispatched to the enabled USB sink unchanged, without a timestamp prefix. -/
theorem claim_C7_counterexample :
    LogRouter.specClaimKeywordMatch "fault detected\r\n" = true
    ∧ LogRouter.needTimeStamp "fault detected\r\n" = false
    ∧ LogRouter.log (LogRouter.State.mk true false) "00:00:00.000"
        "fault detected\r\n"
        = some (LogRouter.Sink.usb, "fault detected\r\n") := by
  refine ⟨by decide, by decide, by decide⟩

/-- C7 amended: the keyword table is the fixed case-sensitive set Warning /
Error / Fail / Critical / Overflow / Event / Hardware Fault / Program Fault /
System Fault / Supervisor, matched as substrings; a nonempty message matching
one of them is dispatched to the selected sink prefixed with the clock string
as "[ts] msg" (through the 255-character format buffer), and a nonempty
message (of at most 255 characters) matching none is passed through
unchanged. -/
theorem claim_C7_amended (s : LogRouter.State) (ts msg : String)
    (hne : msg.data ≠ []) (hlen : msg.data.length ≤ 255) :
    LogRouter.log s ts msg
      = (LogRouter.routeTarget s).map (fun k =>
          (k, if LogRouter.needTimeStamp msg then
                LogRouter.truncate 255 ("[" ++ ts ++ "] " ++ msg)
              else msg)) := by
  have h0 : ¬ msg.data.length = 0 := fun h => hne (List.length_eq_zero.mp h)
  have htr : LogRouter.truncate 255 msg = msg := by
    show String.mk (msg.data.take 255) = msg
    rw [List.take_of_length_le hlen]
  simp only [LogRouter.log, LogRouter.formatMsg, LogRouter.formatKeyworded,
    if_neg h0, htr]

/-- Witness for the amended C7: a keyword-bearing message gets the prefix, on
the USB sink. -/
theorem claim_C7_amended_witness :
    LogRouter.log (LogRouter.State.mk true false) "00:00:01.000"
        "Error: oops\r\n"
      = (LogRouter.routeTarget (LogRouter.State.mk true false)).map (fun k =>
          (k, if LogRouter.needTimeStamp "Error: oops\r\n" then
                LogRouter.truncate 255
                  ("[" ++ "00:00:01.000" ++ "] " ++ "Error: oops\r\n")
              else "Error: oops\r\n")) :=
  claim_C7_amended (LogRouter.State.mk true false) "00:00:01.000"
    "Error: oops\r\n" (by decide) (by decide)

/-- C10: `LogRouter::log` of the empty string substitutes the fixed message
"Warning: Log message is empty.\r\n"; that message contains the keyword
"Warning", so it is timestamped and dispatched to the currently selected sink
like any other message (and dropped only when no sink is enabled). -/
theorem claim_C10 (s : LogRouter.State) (ts : String) :
    LogRouter.needTimeStamp LogRouter.emptyMsgDefault = true
    ∧ LogRouter.log s ts ""
        = (LogRouter.routeTarget s).map (fun k =>
            (k, LogRouter.truncate 255
              ("[" ++ ts ++ "] " ++ LogRouter.emptyMsgDefault))) := by
  have hk : LogRouter.needTimeStamp LogRouter.emptyMsgDefault = true := by decide
  refine ⟨hk, ?_⟩
  simp only [LogRouter.log, LogRouter.formatMsg, LogRouter.formatKeyworded, hk]
  rfl

/-- C8: a received bare-integer command with value v sets the LED on-time to
v and logs a success event when 100 <= v <= 2000; an out-of-range nonzero v
is rejected with a (nonempty) range-error reply and the on-time is
unchanged; v = 0 is ignored with no reply. -/
theorem claim_C8 (onTime : Nat) (s : String) (v : Nat)
    (hparse : UsbLogger.parseDec s = some v) :
    (100 ≤ v ∧ v ≤ 2000 →
        UsbLogger.loggerCommand onTime s
          = (v, UsbLogger.CmdAction.ledOnTimeSet v
              ("Event: New ON Time: " ++ toString v ++ " ms\r\n")))
    ∧ (¬(100 ≤ v ∧ v ≤ 2000) → v ≠ 0 →
        UsbLogger.loggerCommand onTime s
            = (onTime, UsbLogger.CmdAction.chunkReply
                (UsbLogger.xferBytes UsbLogger.invalidOnTimeReply v))
          ∧ UsbLogger.xferBytes UsbLogger.invalidOnTimeReply v ≠ "")
    ∧ (v = 0 →
        UsbLogger.loggerCommand onTime s = (onTime, UsbLogger.CmdAction.silent)) := by
  have hnc := UsbLogger.parseDec_not_command hparse
  have hred : UsbLogger.loggerCommand onTime s
      = if UsbLogger.LED_ON_TIME_MIN ≤ v ∧ v ≤ UsbLogger.LED_ON_TIME_MAX then
          (v, UsbLogger.CmdAction.ledOnTimeSet v
            ("Event: New ON Time: " ++ toString v ++ " ms\r\n"))
        else if v ≠ 0 then
          (onTime, UsbLogger.CmdAction.chunkReply
            (UsbLogger.xferBytes UsbLogger.invalidOnTimeReply v))
        else (onTime, UsbLogger.CmdAction.silent) := by
    unfold UsbLogger.loggerCommand
    rw [if_neg hnc, hparse]
  rw [hred]
  refine ⟨fun hv => ?_, fun hv hnz => ?_, fun hz => ?_⟩
  · rw [if_pos (by
      simpa [UsbLogger.LED_ON_TIME_MIN, UsbLogger.LED_ON_TIME_MAX] using hv)]
  · rw [if_neg (by
      simpa [UsbLogger.LED_ON_TIME_MIN, UsbLogger.LED_ON_TIME_MAX] using hv),
      if_pos hnz]
    refine ⟨rfl, fun heq => ?_⟩
    have hdata := congrArg String.data heq
    have hempty : UsbLogger.invalidOnTimeReply.data.take v = [] := hdata
    rcases List.take_eq_nil_iff.mp hempty with h0 | h0
    · exact hnz h0
    · exact absurd h0 (by decide)
  · subst hz
    rw [if_neg (by simp [UsbLogger.LED_ON_TIME_MIN, UsbLogger.LED_ON_TIME_MAX]),
      if_neg (by simp)]

/-- Witness for C8 at the spec's concrete scenario: "1500" while on-time is
500 succeeds; "50" is rejected with the on-time unchanged; "0" is silent. -/
theorem claim_C8_witness :
    UsbLogger.loggerCommand 500 "1500"
        = (1500, UsbLogger.CmdAction.ledOnTimeSet 1500
            ("Event: New ON Time: " ++ toString 1500 ++ " ms\r\n"))
    ∧ UsbLogger.loggerCommand 500 "50"
        = (500, UsbLogger.CmdAction.chunkReply
            (UsbLogger.xferBytes UsbLogger.invalidOnTimeReply 50))
    ∧ UsbLogger.loggerCommand 500 "0" = (500, UsbLogger.CmdAction.silent) :=
  ⟨(claim_C8 500 "1500" 1500 (by decide)).1 (by omega),
    ((claim_C8 500 "50" 50 (by decide)).2.1 (by omega) (by omega)).1,
    (claim_C8 500 "0" 0 (by decide)).2.2 rfl⟩

/-- C9: on a digit-shaped 8-character "hh:mm:ss" command, `BootClock::setRTC`
succeeds if and only if hours < 24, minutes < 60 and seconds < 60; on an
out-of-range field the clock offset is unchanged and the status is an error;
on success the offset is updated so that a later `getCurrentTimeString` at
tick `tick + delta` renders the set time advanced by `delta` milliseconds
(within the uint32 range). -/
theorem claim_C9 (buf : String) (hours minutes seconds : Nat)
    (hparse : BootClock.parseRTC buf = some (hours, minutes, seconds))
    (tick clock_offset : Nat) :
    ((BootClock.setRTC tick clock_offset buf).1 = BootClock.SetRTCStatus.SUCCESS
      ↔ (hours < 24 ∧ minutes < 60 ∧ seconds < 60))
    ∧ (¬(hours < 24 ∧ minutes < 60 ∧ seconds < 60) →
        (BootClock.setRTC tick clock_offset buf).2 = clock_offset
        ∧ (BootClock.setRTC tick clock_offset buf).1
            ≠ BootClock.SetRTCStatus.SUCCESS)
    ∧ (∀ delta : Nat, hours < 24 → minutes < 60 → seconds < 60 →
        tick < BootClock.U32 →
        hours * 3600000 + minutes * 60000 + seconds * 1000 + delta
            < BootClock.U32 →
        BootClock.getCurrentTimeString (tick + delta)
            (BootClock.setRTC tick clock_offset buf).2
          = BootClock.clockDisplay
              (hours * 3600000 + minutes * 60000 + seconds * 1000 + delta)) := by
  have hs : BootClock.setRTC tick clock_offset buf
      = if 24 ≤ hours ∨ 60 ≤ minutes ∨ 60 ≤ seconds then
          (BootClock.SetRTCStatus.INVALID_VALUE, clock_offset)
        else
          (BootClock.SetRTCStatus.SUCCESS,
            (hours * 3600000 + minutes * 60000 + seconds * 1000
              + BootClock.U32 - tick % BootClock.U32) % BootClock.U32) := by
    rw [BootClock.setRTC, hparse]
  by_cases hv : hours < 24 ∧ minutes < 60 ∧ seconds < 60
  · rw [hs, if_neg (by omega)]
    refine ⟨by simp [hv], fun hc => absurd hv hc, ?_⟩
    intro delta h1 h2 h3 htick hlt
    show BootClock.clockDisplay _ = BootClock.clockDisplay _
    congr 1
    simp only [BootClock.U32] at htick hlt ⊢
    omega
  · rw [hs, if_pos (by omega)]
    refine ⟨?_, fun _ => ⟨rfl, fun hsu => BootClock.SetRTCStatus.noConfusion hsu⟩,
      fun delta h1 h2 h3 _ _ => absurd ⟨h1, h2, h3⟩ hv⟩
    constructor
    · intro hsu; exact absurd (BootClock.SetRTCStatus.noConfusion hsu) id
    · intro h; exact absurd h hv

/-- Witness for C9 at the spec's concrete scenario: "08:30:15" is accepted
and the clock then reads 08:30:15 plus the elapsed milliseconds; "12:61:00"
is rejected with the offset unchanged. -/
theorem claim_C9_witness :
    ((BootClock.setRTC 1000 77 "08:30:15").1 = BootClock.SetRTCStatus.SUCCESS
      ↔ (8 < 24 ∧ 30 < 60 ∧ 15 < 60))
    ∧ BootClock.getCurrentTimeString (1000 + 2000)
        (BootClock.setRTC 1000 77 "08:30:15").2
        = BootClock.clockDisplay (8 * 3600000 + 30 * 60000 + 15 * 1000 + 2000)
    ∧ (BootClock.setRTC 500 99 "12:61:00").2 = 99
    ∧ (BootClock.setRTC 500 99 "12:61:00").1
        ≠ BootClock.SetRTCStatus.SUCCESS := by
  have h1 := claim_C9 "08:30:15" 8 30 15 (by decide) 1000 77
  have h2 := claim_C9 "12:61:00" 12 61 0 (by decide) 500 99
  exact ⟨h1.1,
    h1.2.2 2000 (by decide) (by decide) (by decide) (by decide) (by decide),
    (h2.2.1 (by omega)).1, (h2.2.1 (by omega)).2⟩

/-- Witness for C10 at a concrete state and clock string. -/
theorem claim_C10_witness :
    LogRouter.log (LogRouter.State.mk true false) "00:00:00.000" ""
      = (LogRouter.routeTarget (LogRouter.State.mk true false)).map (fun k =>
          (k, LogRouter.truncate 255
            ("[" ++ "00:00:00.000" ++ "] " ++ LogRouter.emptyMsgDefault))) :=
  (claim_C10 (LogRouter.State.mk true false) "00:00:00.000").2

/-- C3: every chunk transmitted by the replay loop is the read chunk trimmed
back to its last newline (so a record is never split across two transmitted
chunks: each transmitted chunk ends with a newline), the cursor advances by
exactly the trimmed length, and any completed run delivers exactly the
contiguous file bytes from the starting cursor to the final cursor, in
original order. -/
theorem claim_C3 (content : List Char) (fuel pos : Nat)
    (chunks : List (List Char)) (fin : Nat)
    (hpos : pos ≤ content.length)
    (hrun : FsLog.fsRun content fuel pos = some (chunks, fin)) :
    (∀ (p : Nat) (c : List Char) (next : Nat),
        FsLog.fsStep content p = FsLog.StepRes.sent c next →
        c = (FsLog.chunkAt content p).take
              (FsLog.trimLen (FsLog.chunkAt content p))
        ∧ FsLog.lastNl (FsLog.chunkAt content p) = some (c.length - 1)
        ∧ c.getLast? = some '\n'
        ∧ next = p + c.length)
    ∧ pos ≤ fin ∧ fin ≤ content.length
    ∧ chunks.foldr (· ++ ·) [] = (content.drop pos).take (fin - pos)
    ∧ ∀ c ∈ chunks, c.getLast? = some '\n' := by
  refine ⟨fun p c next h => ?_, FsLog.fsRun_spec content fuel pos chunks fin hpos hrun⟩
  obtain ⟨_, _, hc, _⟩ := FsLog.fsStep_sent_inv h
  obtain ⟨_, hgl, _, hnext⟩ := FsLog.sent_chunk_spec h
  exact ⟨hc, FsLog.sent_lastNl h, hgl, hnext⟩

/-- Witness for C3 on a concrete two-record file: the completed run delivers
the file bytes from cursor 0 to cursor 6. -/
theorem claim_C3_witness :
    ["ab\ncd\n".data].foldr (· ++ ·) [] = ("ab\ncd\n".data.drop 0).take (6 - 0) :=
  (claim_C3 "ab\ncd\n".data 2 0 ["ab\ncd\n".data] 6 (by decide)
    (by decide)).2.2.2.1

theorem fsRun_ab_eq_none : ∀ fuel, FsLog.fsRun ['a', 'b'] fuel 0 = none := by
  intro fuel
  induction fuel with
  | zero => rfl
  | succ fuel ih => rw [FsLog.fsRun_succ_stall (by decide), ih]

/-- C4 counterexample: for the file content "ab" (no newline in the chunk)
the replay loop makes zero progress forever — the cursor never reaches the
file size and the loop does not terminate, contradicting the claimed
termination for every file content. -/
theorem claim_C4_counterexample : ¬ FsLog.Terminates ['a', 'b'] 0 := by
  rintro ⟨fuel, r, hr⟩
  rw [fsRun_ab_eq_none fuel] at hr
  cases hr

/-- C4 amended: the replay loop terminates if and only if no zero-progress
iteration is ever reached: from the starting cursor, every iterated cursor
position must be one where either the cursor has reached the file size or
the read chunk trims to a length of at least 2 (a newline past index 0). A
chunk with no newline — a record longer than one 256-byte chunk — stalls the
loop forever. -/
theorem claim_C4_amended (content : List Char) (pos : Nat) :
    FsLog.Terminates content pos
      ↔ ∀ k, ¬ FsLog.stalled content ((FsLog.advance content)^[k] pos) := by
  constructor
  · rintro ⟨fuel, r, hr⟩
    exact FsLog.run_no_stall content fuel pos r hr
  · intro H
    exact FsLog.terminates_of_no_stall_aux content (content.length - pos) pos
      le_rfl H

theorem iterate_advance_an (k : Nat) :
    (FsLog.advance ['a', '\n'])^[k] 0 = 0
    ∨ (FsLog.advance ['a', '\n'])^[k] 0 = 2 := by
  induction k with
  | zero => left; rfl
  | succ k ih =>
    rw [Function.iterate_succ_apply']
    rcases ih with h | h <;> rw [h]
    · right; rfl
    · right; rfl

theorem no_stall_an (k : Nat) :
    ¬ FsLog.stalled ['a', '\n'] ((FsLog.advance ['a', '\n'])^[k] 0) := by
  rcases iterate_advance_an k with h | h <;> rw [h] <;> decide

/-- Witness for the amended C4: replay of the newline-terminated one-record
file "a\n" terminates. -/
theorem claim_C4_amended_witness : FsLog.Terminates ['a', '\n'] 0 :=
  (claim_C4_amended ['a', '\n'] 0).mpr no_stall_an

/-- C5: when the free space on the volume is smaller than the pending
message, `fs_write` rotates the file: the old content is discarded (the file
is closed, deleted and recreated), the first record of the new file is the
"recreated" marker, the pending message is written right after it, and the
replay cursor is reset to 0. -/
theorem claim_C5 (capacity : Nat) (msg : String) (s : FsLog.FsState)
    (hfull : FsLog.ffree capacity s < msg.data.length) :
    FsLog.fs_write capacity msg s
        = { content := FsLog.RECREATE_MARKER.data ++ msg.data, cursor_pos := 0 }
    ∧ FsLog.firstRecord (FsLog.fs_write capacity msg s).content
        = FsLog.RECREATE_MARKER.data
    ∧ (FsLog.fs_write capacity msg s).content.drop
        FsLog.RECREATE_MARKER.data.length = msg.data
    ∧ (FsLog.fs_write capacity msg s).cursor_pos = 0 := by
  have hw : FsLog.fs_write capacity msg s
      = { content := FsLog.RECREATE_MARKER.data ++ msg.data,
          cursor_pos := 0 } := by
    unfold FsLog.fs_write
    rw [if_pos hfull]
  refine ⟨hw, ?_, ?_, by rw [hw]⟩
  · rw [hw]
    exact FsLog.firstRecord_append msg.data (by decide)
  · rw [hw]
    exact List.drop_left _ _

/-- Witness for C5: a full 10-byte volume rotates on the next write. -/
theorem claim_C5_witness :
    FsLog.fs_write 10 "Error\r\n" ⟨List.replicate 10 'a', 5⟩
      = { content := FsLog.RECREATE_MARKER.data ++ "Error\r\n".data,
          cursor_pos := 0 } :=
  (claim_C5 10 "Error\r\n" ⟨List.replicate 10 'a', 5⟩ (by decide)).1

/-- C6 counterexample: a replay request with the cursor already at the file
size transmits nothing, but the only user-visible output is the notice
"Replaying logs to USB...", which is also emitted on a replay that has data —
the code produces no distinct "nothing to replay" reply, contradicting the
claimed explicit reply. -/
theorem claim_C6_counterexample :
    FsLog.replayLogsToUsb "x\n".data 2 1
        = some ([FsLog.replayNotice], [], 2)
    ∧ FsLog.replayLogsToUsb "x\n".data 0 2
        = some ([FsLog.replayNotice], ["x\n".data], 2) :=
  ⟨rfl, rfl⟩

/-- C6 amended: calling replay when the cursor is already at (or beyond) the
file size retransmits nothing — the loop returns on its first iteration —
and the only output the caller sees is the unconditional "Replaying logs to
USB..." notice; no dedicated "nothing to replay" reply exists. -/
theorem claim_C6_amended (content : List Char) (cursor_pos fuel : Nat)
    (hc : content.length ≤ cursor_pos) (hf : 0 < fuel) :
    FsLog.replayLogsToUsb content cursor_pos fuel
      = some ([FsLog.replayNotice], [], cursor_pos) := by
  obtain ⟨f, rfl⟩ : ∃ f, fuel = f + 1 := ⟨fuel - 1, by omega⟩
  unfold FsLog.replayLogsToUsb
  rw [FsLog.fsRun_succ_done (FsLog.fsStep_eq_done_iff.mpr hc)]
  rfl

/-- Witness for the amended C6 at a concrete file. -/
theorem claim_C6_amended_witness :
    FsLog.replayLogsToUsb "x\n".data 2 5
      = some ([FsLog.replayNotice], [], 2) :=
  claim_C6_amended "x\n".data 2 5 (by decide) (by decide)

end Blinky
